import Mathlib

/-!
Verification of the SNAP short-read aligner core (Blahah/snap) against its
C++ sources.  Each definition below is a shallow embedding of one function
or data structure of the repository; the source file and lines are named in
the doc comment of every definition.  Machine integers are modelled as Nat
or Int (with explicit bounds where overflow could matter), doubles as real
numbers, and the C log10 as the real base-10 logarithm.
-/

namespace Snap

/-! ### Data reader cursors (src/SNAPLib/DataReader.cpp)

GzipDataReader::advance (lines 583-588) and MemMapDataReader::advance
(lines 932-938) both read: offset = min(offset + max((_int64) 0, bytes), validBytes).
The fields offset, validBytes and the argument bytes are _int64, modelled as Int. -/

/-- Embedding of GzipDataReader::advance, src/SNAPLib/DataReader.cpp lines 583-588:
returns the new value of the offset field. -/
def gzipAdvance (offset validBytes bytes : Int) : Int :=
  min (offset + max 0 bytes) validBytes

/-- Embedding of MemMapDataReader::advance, src/SNAPLib/DataReader.cpp lines 932-938:
returns the new value of the offset field.  The body is the same statement as in
GzipDataReader::advance (the _ASSERT(bytes >= 0) has no effect on the result). -/
def memMapAdvance (offset validBytes bytes : Int) : Int :=
  min (offset + max 0 bytes) validBytes

/-- C10: for every reader state and every argument bytes (negative values and
values beyond the remaining data included), both advance implementations set the
new offset to min(offset + max(0, bytes), validBytes); when the cursor starts
inside the valid region (0 <= offset <= validBytes) it never moves backwards and
never passes validBytes. -/
theorem advance_stays_in_valid_region (offset validBytes bytes : Int)
    (h0 : 0 ≤ offset) (hv : offset ≤ validBytes) :
    gzipAdvance offset validBytes bytes = min (offset + max 0 bytes) validBytes ∧
    memMapAdvance offset validBytes bytes = min (offset + max 0 bytes) validBytes ∧
    0 ≤ gzipAdvance offset validBytes bytes ∧
    offset ≤ gzipAdvance offset validBytes bytes ∧
    gzipAdvance offset validBytes bytes ≤ validBytes ∧
    offset ≤ memMapAdvance offset validBytes bytes ∧
    memMapAdvance offset validBytes bytes ≤ validBytes := by
  unfold gzipAdvance memMapAdvance
  refine ⟨rfl, rfl, ?_, ?_, ?_, ?_, ?_⟩ <;> omega

/-- Witness for C10 at offset 3, validBytes 10, bytes -7. -/
theorem advance_stays_in_valid_region_witness :
    (0 ≤ (3 : Int)) ∧ (3 : Int) ≤ 10 ∧
    (gzipAdvance 3 10 (-7) = min (3 + max 0 (-7)) 10 ∧
     memMapAdvance 3 10 (-7) = min (3 + max 0 (-7)) 10 ∧
     0 ≤ gzipAdvance 3 10 (-7) ∧
     (3 : Int) ≤ gzipAdvance 3 10 (-7) ∧
     gzipAdvance 3 10 (-7) ≤ 10 ∧
     (3 : Int) ≤ memMapAdvance 3 10 (-7) ∧
     memMapAdvance 3 10 (-7) ≤ 10) :=
  ⟨by decide, by decide, advance_stays_in_valid_region 3 10 (-7) (by decide) (by decide)⟩

/-! ### BGZF virtual offsets (src/unnamed/part_001, GzipWriterFilterSupplier) -/

/-- UINT64_MAX, the sentinel logical offset. -/
def UINT64_MAX : Nat := 18446744073709551615

/-- Embedding of GzipWriterFilterSupplier::toVirtualOffset, src/unnamed/part_001
lines 317-327.  The translation of logical (uncompressed) offsets to physical
block starts and in-block deltas is performed by GzipWriterFilterSupplier::translate,
which lives in GzipDataWriter.cpp, a file the repository sources do not include;
it is therefore taken as an abstract parameter, a partial map from a logical
offset to the pair (physical, delta) (modelled from the spec: the gzip filter
records logical to physical anchors for virtual-offset translation). -/
def toVirtualOffset (translate : Nat → Option (Nat × Nat)) (logical : Nat) : Nat :=
  if logical ≠ UINT64_MAX then
    match translate logical with
    | some (physical, delta) =>
        if delta < 65536 ∧ physical < 2 ^ 48 then (physical <<< 16) ||| delta else 0
    | none => 0
  else 0

/-- A translation map that maps the sentinel logical offset UINT64_MAX to the
in-range pair (physical 1, delta 0) and nothing else. -/
def sentinelTranslation : Nat → Option (Nat × Nat) :=
  fun logical => if logical = UINT64_MAX then some (1, 0) else none

/-- C6 counterexample: the claim says every logical offset that the translation
maps to physical < 2^48 and delta < 2^16 yields (physical << 16) | delta, but for
the sentinel logical offset UINT64_MAX the code returns 0 without consulting the
translation: here the translation maps UINT64_MAX to (1, 0), whose virtual offset
would be 65536, yet toVirtualOffset returns 0. -/
theorem toVirtualOffset_sentinel_counterexample :
    sentinelTranslation UINT64_MAX = some (1, 0) ∧
    ((0 : Nat) < 65536 ∧ (1 : Nat) < 2 ^ 48) ∧
    (((1 : Nat) <<< 16) ||| 0) = 65536 ∧
    toVirtualOffset sentinelTranslation UINT64_MAX = 0 := by
  refine ⟨rfl, by decide, by decide, ?_⟩
  unfold toVirtualOffset
  simp

/-- C6 (amended): for every logical offset other than the sentinel UINT64_MAX
that the translation maps to (physical, delta) with physical < 2^48 and
delta < 2^16, toVirtualOffset returns (physical << 16) | delta; for every other
logical offset (no translation, a component out of range, or the sentinel) it
returns 0. -/
theorem toVirtualOffset_spec (translate : Nat → Option (Nat × Nat)) (logical : Nat)
    (hsent : logical ≠ UINT64_MAX) :
    (∀ physical delta, translate logical = some (physical, delta) →
        delta < 65536 → physical < 2 ^ 48 →
        toVirtualOffset translate logical = (physical <<< 16) ||| delta) ∧
    (∀ physical delta, translate logical = some (physical, delta) →
        ¬(delta < 65536 ∧ physical < 2 ^ 48) →
        toVirtualOffset translate logical = 0) ∧
    (translate logical = none → toVirtualOffset translate logical = 0) ∧
    toVirtualOffset translate UINT64_MAX = 0 := by
  refine ⟨?_, ?_, ?_, ?_⟩
  · intro physical delta ht hd hp
    unfold toVirtualOffset
    rw [if_pos hsent, ht]
    dsimp only
    rw [if_pos ⟨hd, hp⟩]
  · intro physical delta ht hout
    unfold toVirtualOffset
    rw [if_pos hsent, ht]
    dsimp only
    rw [if_neg hout]
  · intro ht
    unfold toVirtualOffset
    rw [if_pos hsent, ht]
  · unfold toVirtualOffset
    simp

/-- A translation map for the witness: logical offset 100 is at delta 4 inside
the block starting at physical offset 7. -/
def witnessTranslation : Nat → Option (Nat × Nat) :=
  fun logical => if logical = 100 then some (7, 4) else none

/-- Witness for C6 at logical = 100 with translation (7, 4). -/
theorem toVirtualOffset_spec_witness :
    (100 : Nat) ≠ UINT64_MAX ∧
    ((∀ physical delta, witnessTranslation 100 = some (physical, delta) →
        delta < 65536 → physical < 2 ^ 48 →
        toVirtualOffset witnessTranslation 100 = (physical <<< 16) ||| delta) ∧
     (∀ physical delta, witnessTranslation 100 = some (physical, delta) →
        ¬(delta < 65536 ∧ physical < 2 ^ 48) →
        toVirtualOffset witnessTranslation 100 = 0) ∧
     (witnessTranslation 100 = none → toVirtualOffset witnessTranslation 100 = 0) ∧
     toVirtualOffset witnessTranslation UINT64_MAX = 0) :=
  ⟨by decide, toVirtualOffset_spec witnessTranslation 100 (by decide)⟩

/-! ### Batch reference tracking (src/SNAPLib/DataReader.cpp, BatchTracker)

DataBatch itself is declared in DataReader.h, which is not among the
repository sources; it is modelled from the spec (section 3, Data batch: an
identifier (file_id, batch_id)).  The fields are _uint32 in the source; the
counterexamples and theorems below use values far below 2^32, so Nat is a
faithful model.  The pending map is a VariableSizeMap from batch key to
count; it is modelled as an association list with at most one entry per key,
where get returns 0 for an absent key. -/

/-- Modelled from the spec: a data batch identifier (file_id, batch_id);
DataReader.h is not among the sources. -/
structure DataBatch where
  fileID : Nat
  batchID : Nat
deriving DecidableEq, Repr

/-- Modelled from the spec: the comparison removed < *release used by
BatchTracker::removeRead; batches are ordered by file, then batch number
(DataReader.h is not among the sources).  Only the batchID comparison matters
below, because removeRead always compares batches of the same fileID. -/
def DataBatch.lt (a b : DataBatch) : Bool :=
  a.fileID < b.fileID || (a.fileID == b.fileID && a.batchID < b.batchID)

/-- The pending map of BatchTracker: batch to outstanding-read count. -/
abbrev BatchMap : Type := List (DataBatch × Nat)

/-- VariableSizeMap::get: the stored count, 0 when the key is absent. -/
def mapGet (m : BatchMap) (k : DataBatch) : Nat :=
  match List.find? (fun e => e.1 == k) m with
  | some e => e.2
  | none => 0

/-- VariableSizeMap::put: store v under k (replacing any previous value). -/
def mapPut (m : BatchMap) (k : DataBatch) (v : Nat) : BatchMap :=
  match m with
  | [] => [(k, v)]
  | e :: rest => if e.1 == k then (k, v) :: rest else e :: mapPut rest k v

/-- UINT32_MAX, the starting value of the minimum-batch scan in removeRead. -/
def UINT32_MAX : Nat := 4294967295

/-- The scan of BatchTracker::removeRead, src/SNAPLib/DataReader.cpp lines
1057-1064: the smallest batchID among pending entries of the same file,
starting from UINT32_MAX.  The iteration order of the Lean fold is the list
order; the minimum is order-independent. -/
def minBatchScan (pending : BatchMap) (fileID : Nat) : Nat :=
  pending.foldl
    (fun minBatch e =>
      if e.1.fileID == fileID && e.1.batchID < minBatch then e.1.batchID else minBatch)
    UINT32_MAX

/-- Embedding of BatchTracker::addRead, src/SNAPLib/DataReader.cpp lines 1037-1043. -/
def addRead (pending : BatchMap) (batch : DataBatch) : BatchMap :=
  mapPut pending batch (mapGet pending batch + 1)

/-- Embedding of BatchTracker::removeRead, src/SNAPLib/DataReader.cpp lines
1045-1067: returns the updated pending map, the boolean result, and the
batch written to *release.  When n > 1 the source leaves *release unwritten;
that component is then unused (the source only reads it when the result is
true), and the embedding returns the batch (fileID, UINT32_MAX) there.
Note that the n == 1 branch of the source neither erases nor decrements the
entry of the removed batch before scanning for the smallest remaining batch
of the same file. -/
def removeRead (pending : BatchMap) (removed : DataBatch) : BatchMap × Bool × DataBatch :=
  let n := mapGet pending removed
  if 1 < n then
    (mapPut pending removed (n - 1), false, ⟨removed.fileID, UINT32_MAX⟩)
  else
    let release : DataBatch := ⟨removed.fileID, minBatchScan pending removed.fileID⟩
    (pending, DataBatch.lt removed release, release)

/-- Embedding of the release decision of ReadSupplierQueue::doneWithElement,
src/SNAPLib/ReadSupplierQueue.cpp lines 253-273, for one tracked batch: the
releaseBefore call is issued on the underlying reader exactly when
tracker.removeRead returns true, with the release batch it produced. -/
def doneWithElementRelease (pending : BatchMap) (firstReadBatch : DataBatch) :
    BatchMap × Option DataBatch :=
  match removeRead pending firstReadBatch with
  | (pending2, true, release) => (pending2, some release)
  | (pending2, false, _) => (pending2, none)

/-- Helper: the minimum-batch fold never exceeds its accumulator. -/
theorem minBatchScan_le_acc (fileID : Nat) :
    ∀ (l : List (DataBatch × Nat)) (acc : Nat),
      l.foldl (fun minBatch e =>
        if e.1.fileID == fileID && e.1.batchID < minBatch then e.1.batchID else minBatch) acc ≤ acc := by
  intro l
  induction l with
  | nil => intro acc; simp
  | cons e rest ih =>
    intro acc
    simp only [List.foldl_cons]
    by_cases h : (e.1.fileID == fileID && e.1.batchID < acc) = true
    · rw [if_pos h]
      have h2 := (Bool.and_eq_true _ _).mp h
      exact le_trans (ih e.1.batchID) (le_of_lt (by exact_mod_cast of_decide_eq_true h2.2))
    · rw [if_neg h]
      exact ih acc

/-- Helper: the minimum-batch fold is bounded by the batchID of any entry of
the scanned file that occurs in the list. -/
theorem minBatchScan_le_entry (fileID : Nat) :
    ∀ (l : List (DataBatch × Nat)) (acc : Nat) (e : DataBatch × Nat),
      e ∈ l → e.1.fileID = fileID →
      l.foldl (fun minBatch x =>
        if x.1.fileID == fileID && x.1.batchID < minBatch then x.1.batchID else minBatch) acc ≤
        e.1.batchID := by
  intro l
  induction l with
  | nil => intro acc e he; exact absurd he (List.not_mem_nil e)
  | cons x rest ih =>
    intro acc e he hfid
    simp only [List.foldl_cons]
    rcases List.mem_cons.mp he with rfl | hmem
    · by_cases h : (e.1.fileID == fileID && e.1.batchID < acc) = true
      · rw [if_pos h]
        exact minBatchScan_le_acc fileID rest e.1.batchID
      · rw [if_neg h]
        have : ¬ e.1.batchID < acc := by
          intro hlt
          exact h (by simp [hfid, hlt])
        exact le_trans (minBatchScan_le_acc fileID rest acc) (le_of_not_lt this)
    · exact ih _ e hmem hfid

/-- Helper: a key with a nonzero count occurs in the pending list. -/
theorem mem_of_mapGet_ne_zero (pending : BatchMap) (k : DataBatch)
    (h : mapGet pending k ≠ 0) : (k, mapGet pending k) ∈ pending := by
  unfold mapGet at h ⊢
  cases hf : List.find? (fun e => e.1 == k) pending with
  | none => rw [hf] at h; exact absurd rfl h
  | some e =>
    dsimp only at h ⊢
    have hmem := List.mem_of_find?_eq_some hf
    have hkey : e.1 = k := by
      have := List.find?_some hf
      exact eq_of_beq this
    have he : e = (k, e.2) := by
      cases e; simp_all
    rw [he] at hmem
    exact hmem

/-- C2: BatchTracker::removeRead never signals a release.  Whenever the
removed batch is actually pending (count nonzero, which the _ASSERT in the
source demands), the n == 1 branch scans a map that still contains the
removed batch itself, so the computed minimum batch of that file is at most
the removed batch and removed < release is false; consequently
doneWithElement never calls releaseBefore on the underlying reader, however
many times a batch has been added and removed. -/
theorem removeRead_never_signals_release (pending : BatchMap) (removed : DataBatch)
    (h : mapGet pending removed ≠ 0) :
    (removeRead pending removed).2.1 = false ∧
    (doneWithElementRelease pending removed).2 = none := by
  have hmain : (removeRead pending removed).2.1 = false := by
    unfold removeRead
    by_cases h1 : 1 < mapGet pending removed
    · rw [if_pos h1]
    · rw [if_neg h1]
      dsimp only
      have hmem := mem_of_mapGet_ne_zero pending removed h
      have hle : minBatchScan pending removed.fileID ≤ removed.batchID := by
        unfold minBatchScan
        exact minBatchScan_le_entry removed.fileID pending UINT32_MAX
          (removed, mapGet pending removed) hmem rfl
      unfold DataBatch.lt
      simp only [Bool.or_eq_false_iff, Bool.and_eq_false_iff]
      constructor
      · simp [Nat.lt_irrefl]
      · right
        simp only [decide_eq_false_iff_not, not_lt]
        exact hle
  refine ⟨hmain, ?_⟩
  unfold doneWithElementRelease
  rcases hr : removeRead pending removed with ⟨p2, b, rel⟩
  have : b = false := by rw [hr] at hmain; exact hmain
  subst this
  rfl

/-- Witness for C2: a tracker holding exactly one outstanding read of batch
(file 0, batch 1); removing that read returns false and issues no release. -/
theorem removeRead_never_signals_release_witness :
    mapGet [(⟨0, 1⟩, 1)] ⟨0, 1⟩ ≠ 0 ∧
    ((removeRead [(⟨0, 1⟩, 1)] ⟨0, 1⟩).2.1 = false ∧
     (doneWithElementRelease [(⟨0, 1⟩, 1)] ⟨0, 1⟩).2 = none) :=
  ⟨by decide, removeRead_never_signals_release [(⟨0, 1⟩, 1)] ⟨0, 1⟩ (by decide)⟩

/-! ### Reader thread element filling (src/SNAPLib/ReadSupplierQueue.cpp)

ReadSupplierQueue::ReaderThread, lines 356-376 (single reader, increment 1):
the loop fills element->reads[totalReads] from the reader until the element
is full or the reader is exhausted, and is meant to break when a read of a
new batch arrives; the batch-change test at line 372 compares
element->reads[element->totalReads-1].getBatch() with itself.  A read is
modelled by the only attribute the loop inspects, its batch. -/

/-- A read as the reader thread sees it: only its batch matters here. -/
structure QRead where
  batch : DataBatch
deriving DecidableEq, Repr

/-- Embedding of the element-filling loop of ReadSupplierQueue::ReaderThread
(single-reader case, src/SNAPLib/ReadSupplierQueue.cpp lines 356-376), entered
with pendingReadInNextBatch false.  Arguments: element capacity nReads, the
remaining stream of reads the inner reader will deliver, and the reads already
stored (totalReads = acc.length).  Returns (the reads of the element as pushed
to the ready queue, the stream left for later elements).  The batch-change
test is translated literally from line 372: it compares the batch of
reads[totalReads-1] with the batch of reads[totalReads-1]. -/
def fillElementLoop (nReads : Nat) : List QRead → List QRead → List QRead × List QRead
  | [], acc => (acc, [])
  | r :: rest, acc =>
    if acc.length < nReads then
      if 0 < acc.length ∧
          ((acc.getLastD ⟨⟨0, 0⟩⟩).batch ≠ (acc.getLastD ⟨⟨0, 0⟩⟩).batch) then
        (acc, r :: rest)
      else
        fillElementLoop nReads rest (acc ++ [r])
    else (acc, r :: rest)

/-- The batches whose reference count the reader increments while filling one
element (src/SNAPLib/ReadSupplierQueue.cpp lines 365-371): exactly the batch
of reads[0], once, when the first read is stored. -/
def trackedBatches (element : List QRead) : List DataBatch :=
  match element with
  | [] => []
  | r :: _ => [r.batch]

/-- An element is batch-homogeneous when every read in it carries the same
batch as its first read. -/
def batchHomogeneous (element : List QRead) : Prop :=
  match element with
  | [] => True
  | r :: rest => ∀ x ∈ rest, x.batch = r.batch

/-- C9, at the failing input: a stream of two reads whose batches differ,
(file 0, batch 1) then (file 0, batch 2), filled into an element of capacity
4.  The degenerate batch-change test never fires, so both reads end up in one
queue element, which is not batch-homogeneous, while only batch (0, 1) had
its reference count incremented for the element. -/
theorem readerThread_element_not_batch_homogeneous :
    fillElementLoop 4 [⟨⟨0, 1⟩⟩, ⟨⟨0, 2⟩⟩] [] = ([⟨⟨0, 1⟩⟩, ⟨⟨0, 2⟩⟩], []) ∧
    ¬ batchHomogeneous (fillElementLoop 4 [⟨⟨0, 1⟩⟩, ⟨⟨0, 2⟩⟩] []).1 ∧
    trackedBatches (fillElementLoop 4 [⟨⟨0, 1⟩⟩, ⟨⟨0, 2⟩⟩] []).1 = [⟨0, 1⟩] := by
  refine ⟨by decide, ?_, by decide⟩
  intro hh
  have := hh ⟨⟨0, 2⟩⟩ (by decide)
  simp at this

/-- Helper for C9: the batch-change test of line 372 can never fire, so the
loop always takes reads from the stream until the element is full or the
stream ends, whatever the batches are. -/
theorem fillElementLoop_ignores_batches (nReads : Nat) :
    ∀ (stream acc : List QRead),
      fillElementLoop nReads stream acc =
        (acc ++ stream.take (nReads - acc.length), stream.drop (nReads - acc.length)) := by
  intro stream
  induction stream with
  | nil => intro acc; simp [fillElementLoop]
  | cons r rest ih =>
    intro acc
    unfold fillElementLoop
    by_cases hlen : acc.length < nReads
    · rw [if_pos hlen]
      have hcond : ¬ (0 < acc.length ∧
          ((acc.getLastD ⟨⟨0, 0⟩⟩).batch ≠ (acc.getLastD ⟨⟨0, 0⟩⟩).batch)) := by
        rintro ⟨-, hne⟩
        exact hne rfl
      rw [if_neg hcond, ih (acc ++ [r])]
      have h1 : nReads - acc.length = (nReads - (acc ++ [r]).length) + 1 := by
        simp only [List.length_append, List.length_cons, List.length_nil]
        omega
      rw [h1]
      simp [List.take_succ_cons, List.drop_succ_cons, List.append_assoc]
    · rw [if_neg hlen]
      have h0 : nReads - acc.length = 0 := by omega
      rw [h0]
      simp

/-! ### Paired-end fallback dispatch (src/SNAPLib/IntersectingPairedEndAligner.cpp) -/

/-- The nTable of IntersectingPairedEndAligner, built in the constructor
(src/SNAPLib/IntersectingPairedEndAligner.cpp lines 57-61): 1 for the base N,
0 for every other character. -/
def nTable (c : Char) : Nat :=
  if c = 'N' then 1 else 0

/-- Count of N bases in a read, as accumulated by the loop at line 175
(countOfNs += nTable[read->getData()[i]] over the read data). -/
def countOfNs (data : List Char) : Nat :=
  (data.map nTable).sum

/-- Result of one BaseAligner::AlignRead call as the fallback path uses it:
location, direction, score and mapq outputs. -/
structure BaseAlignerResult where
  location : Nat
  direction : Bool
  score : Int
  mapq : Int
deriving DecidableEq, Repr

/-- The per-pair outputs that IntersectingPairedEndAligner::alignWithBaseAligner
fills into the PairedAlignmentResult. -/
structure PairedFallbackResult where
  result0 : BaseAlignerResult
  result1 : BaseAlignerResult
deriving DecidableEq, Repr

/-- Embedding of IntersectingPairedEndAligner::alignWithBaseAligner,
src/SNAPLib/IntersectingPairedEndAligner.cpp lines 584-596: each read is
aligned individually by the single-end base aligner, then each mapq is capped
at maxMapq.  The base aligner is abstract (a function from read data to its
outputs). -/
def alignWithBaseAligner (baseAligner : List Char → BaseAlignerResult)
    (read0 read1 : List Char) (maxMapq : Int) : PairedFallbackResult :=
  let r0 := baseAligner read0
  let r1 := baseAligner read1
  ⟨{ r0 with mapq := min maxMapq r0.mapq }, { r1 with mapq := min maxMapq r1.mapq }⟩

/-- What IntersectingPairedEndAligner::align does with a read pair:
fatalExit is the soft_exit(1) taken at lines 167-170 when a read is longer
than the configured maxReadSize (the process aborts with a diagnostic and
align never returns). -/
inductive AlignDispatch where
  | baseAlignerFallback (result : PairedFallbackResult)
  | intersectionSearch
  | fatalExit
deriving DecidableEq, Repr

/-- Embedding of the entry checks of IntersectingPairedEndAligner::align,
src/SNAPLib/IntersectingPairedEndAligner.cpp lines 142-184: if either read is
shorter than 50 bases the pair goes to alignWithBaseAligner with maxMapq 70
and align returns (lines 142-145); otherwise the loop over the reads aborts
the process when a read exceeds maxReadSize (lines 167-170) and accumulates
the count of N bases over both reads (line 175); if that count exceeds maxK
the pair likewise goes to alignWithBaseAligner with maxMapq 70 (lines
181-184); otherwise the intersection search runs. -/
def alignEntry (baseAligner : List Char → BaseAlignerResult) (maxK maxReadSize : Nat)
    (read0 read1 : List Char) : AlignDispatch :=
  if read0.length < 50 ∨ read1.length < 50 then
    .baseAlignerFallback (alignWithBaseAligner baseAligner read0 read1 70)
  else if maxReadSize < read0.length ∨ maxReadSize < read1.length then
    .fatalExit
  else if maxK < countOfNs read0 + countOfNs read1 then
    .baseAlignerFallback (alignWithBaseAligner baseAligner read0 read1 70)
  else .intersectionSearch

/-- C4: for every read pair in which either read is shorter than 50 bases, or
whose total count of N bases exceeds maxK (the pair fitting maxReadSize, else
the process aborts at lines 167-170 before the N count exists and align never
returns), the intersection search is not run: align dispatches both reads to
the single-end base aligner and returns the result with each mapq capped at
70. -/
theorem intersecting_align_fallback (baseAligner : List Char → BaseAlignerResult)
    (maxK maxReadSize : Nat) (read0 read1 : List Char)
    (h : read0.length < 50 ∨ read1.length < 50 ∨
         (read0.length ≤ maxReadSize ∧ read1.length ≤ maxReadSize ∧
          maxK < countOfNs read0 + countOfNs read1)) :
    alignEntry baseAligner maxK maxReadSize read0 read1 =
      .baseAlignerFallback (alignWithBaseAligner baseAligner read0 read1 70) ∧
    alignEntry baseAligner maxK maxReadSize read0 read1 ≠ .intersectionSearch ∧
    ∀ result,
      alignEntry baseAligner maxK maxReadSize read0 read1 = .baseAlignerFallback result →
      result.result0.mapq ≤ 70 ∧ result.result1.mapq ≤ 70 := by
  have heq : alignEntry baseAligner maxK maxReadSize read0 read1 =
      .baseAlignerFallback (alignWithBaseAligner baseAligner read0 read1 70) := by
    unfold alignEntry
    by_cases hshort : read0.length < 50 ∨ read1.length < 50
    · rw [if_pos hshort]
    · rw [if_neg hshort]
      have hfit : ¬(maxReadSize < read0.length ∨ maxReadSize < read1.length) := by
        rcases h with h | h | ⟨h1, h2, -⟩
        · exact absurd (Or.inl h) hshort
        · exact absurd (Or.inr h) hshort
        · omega
      rw [if_neg hfit]
      have hn : maxK < countOfNs read0 + countOfNs read1 := by tauto
      rw [if_pos hn]
  refine ⟨heq, by rw [heq]; intro hcontra; exact AlignDispatch.noConfusion hcontra, ?_⟩
  intro result hres
  rw [heq] at hres
  have : result = alignWithBaseAligner baseAligner read0 read1 70 :=
    (AlignDispatch.baseAlignerFallback.injEq _ _).mp hres.symm
  subst this
  unfold alignWithBaseAligner
  exact ⟨min_le_left _ _, min_le_left _ _⟩

/-- A base aligner stub for the witness: every read maps to location 0 with
mapq 100. -/
def stubBaseAligner : List Char → BaseAlignerResult :=
  fun _ => ⟨0, false, 0, 100⟩

/-- Witness for C4: a 10-base read paired with a 60-base read (the first is
shorter than 50, so the pair goes to the fallback path). -/
theorem intersecting_align_fallback_witness :
    ((List.replicate 10 'A').length < 50 ∨ (List.replicate 60 'A').length < 50 ∨
       ((List.replicate 10 'A').length ≤ 10000 ∧ (List.replicate 60 'A').length ≤ 10000 ∧
        (8 : Nat) < countOfNs (List.replicate 10 'A') + countOfNs (List.replicate 60 'A'))) ∧
    (alignEntry stubBaseAligner 8 10000 (List.replicate 10 'A') (List.replicate 60 'A') =
       .baseAlignerFallback
         (alignWithBaseAligner stubBaseAligner (List.replicate 10 'A') (List.replicate 60 'A') 70) ∧
     alignEntry stubBaseAligner 8 10000 (List.replicate 10 'A') (List.replicate 60 'A') ≠
       .intersectionSearch ∧
     ∀ result,
       alignEntry stubBaseAligner 8 10000 (List.replicate 10 'A') (List.replicate 60 'A') =
         .baseAlignerFallback result →
       result.result0.mapq ≤ 70 ∧ result.result1.mapq ≤ 70) :=
  ⟨by decide, intersecting_align_fallback stubBaseAligner 8 10000
      (List.replicate 10 'A') (List.replicate 60 'A') (by decide)⟩

/-! ### Single-end pipeline read rejection (src/SNAPLib/SingleAligner.cpp)

SingleAlignerContext::runIterationThread, lines 130-157.  The per-read loop
body is embedded from the point where a read has been taken from the supplier
and has passed the selectivity sampling step (selectivity is a devteam
sampling option, default 1, at which no read is skipped; the random draw is
outside a deterministic embedding).  AlignerOptions::passFilter is embedded
from src/SNAPLib/AlignerOptions.cpp lines 354-374; its FilterUnaligned,
FilterSingleHit and FilterMultipleHits flag bits (AlignerOptions.h is not
among the sources) are modelled as three booleans, filterFlags == 0 meaning
all three are false. -/

/-- The AlignmentResult enumeration as passFilter and the loop use it. -/
inductive AlignmentResult where
  | NotFound
  | CertainHit
  | SingleHit
  | MultipleHits
  | UnknownAlignment
deriving DecidableEq, Repr

/-- The -F output filter state: which result classes are let through.  All
three false models filterFlags == 0 (the default: no filtering). -/
structure FilterFlags where
  filterUnaligned : Bool
  filterSingleHit : Bool
  filterMultipleHits : Bool
deriving DecidableEq, Repr

/-- Embedding of AlignerOptions::passFilter, src/SNAPLib/AlignerOptions.cpp
lines 354-374. -/
def passFilter (flags : FilterFlags) (result : AlignmentResult) : Bool :=
  if flags = ⟨false, false, false⟩ then true
  else
    match result with
    | .NotFound => flags.filterUnaligned
    | .UnknownAlignment => flags.filterUnaligned
    | .SingleHit => flags.filterSingleHit
    | .CertainHit => flags.filterSingleHit
    | .MultipleHits => flags.filterMultipleHits

/-- A read as the single-end loop inspects it: its (clipped) data.  The
countOfNs method of Read (Read.h is not among the sources) is modelled from
the spec as the count of N bases in the data, matching the nTable embedding. -/
structure SRead where
  data : List Char
deriving DecidableEq, Repr

/-- The two statistics fields the rejection path touches
(src/SNAPLib/AlignerStats.h via AlignerStats.cpp). -/
structure IterStats where
  totalReads : Nat
  usefulReads : Nat
deriving DecidableEq, Repr

/-- One samWriter->write call: the result and location passed. -/
structure SamWriteCall where
  result : AlignmentResult
  location : Nat
deriving DecidableEq, Repr

/-- Embedding of the per-read body of SingleAlignerContext::runIterationThread,
src/SNAPLib/SingleAligner.cpp lines 137-157 (after the selectivity draw):
totalReads is incremented; a read shorter than 50 bases or with more than
maxDist N bases is not aligned, and is written as NotFound at location
0xFFFFFFFF when a writer is present and the output filter passes unaligned
reads; otherwise usefulReads is incremented, the aligner runs, and the result
is written subject to the same writer and filter conditions.  Returns the new
statistics, the write calls issued, and whether the aligner ran. -/
def processRead (samWriterPresent : Bool) (flags : FilterFlags) (maxDist : Nat)
    (aligner : SRead → AlignmentResult × Nat) (stats : IterStats) (read : SRead) :
    IterStats × List SamWriteCall × Bool :=
  let stats1 : IterStats := { stats with totalReads := stats.totalReads + 1 }
  if read.data.length < 50 ∨ maxDist < countOfNs read.data then
    (stats1,
     if samWriterPresent ∧ passFilter flags .NotFound = true then
       [⟨.NotFound, 4294967295⟩]
     else [],
     false)
  else
    let stats2 : IterStats := { stats1 with usefulReads := stats1.usefulReads + 1 }
    let ar := aligner read
    (stats2,
     if samWriterPresent ∧ passFilter flags ar.1 = true then [⟨ar.1, ar.2⟩] else [],
     true)

/-- An aligner stub for concrete evaluations: never consulted on the
rejection path. -/
def stubSingleAligner : SRead → AlignmentResult × Nat :=
  fun _ => (.SingleHit, 1000)

/-- C5 counterexample: with a writer present but the output filter set to
single hits only (-F s), a 10-base read is rejected and nothing is emitted,
although the claim says a rejected read is emitted as unmapped whenever a
writer is present.  totalReads still counts it and usefulReads does not. -/
theorem processRead_rejected_counterexample :
    (SRead.mk (List.replicate 10 'A')).data.length < 50 ∧
    (processRead true ⟨false, true, false⟩ 14 stubSingleAligner ⟨0, 0⟩
        ⟨List.replicate 10 'A'⟩).2.1 = [] ∧
    (processRead true ⟨false, true, false⟩ 14 stubSingleAligner ⟨0, 0⟩
        ⟨List.replicate 10 'A'⟩).1 = ⟨1, 0⟩ := by
  refine ⟨by decide, by decide, by decide⟩

/-- C5 (amended): every read shorter than 50 bases or with more than maxDist
N bases is never passed to the aligner; it is counted in totalReads and not
in usefulReads; and it is emitted as unmapped (result NotFound, location
0xFFFFFFFF) exactly when a writer is present and the configured output
filter passes unaligned reads, which is the case whenever the filter is at
its default (no -F option). -/
theorem processRead_rejected_spec (samWriterPresent : Bool) (flags : FilterFlags)
    (maxDist : Nat) (aligner : SRead → AlignmentResult × Nat) (stats : IterStats)
    (read : SRead)
    (h : read.data.length < 50 ∨ maxDist < countOfNs read.data) :
    (processRead samWriterPresent flags maxDist aligner stats read).2.2 = false ∧
    (processRead samWriterPresent flags maxDist aligner stats read).1.totalReads =
      stats.totalReads + 1 ∧
    (processRead samWriterPresent flags maxDist aligner stats read).1.usefulReads =
      stats.usefulReads ∧
    (processRead samWriterPresent flags maxDist aligner stats read).2.1 =
      (if samWriterPresent ∧ passFilter flags .NotFound = true then
        [⟨.NotFound, 4294967295⟩] else []) ∧
    (samWriterPresent = true → flags = ⟨false, false, false⟩ →
      (processRead samWriterPresent flags maxDist aligner stats read).2.1 =
        [⟨.NotFound, 4294967295⟩]) := by
  unfold processRead
  rw [if_pos h]
  refine ⟨rfl, rfl, rfl, rfl, ?_⟩
  intro hw hflags
  subst hw hflags
  rw [if_pos ⟨rfl, rfl⟩]

/-- Witness for C5 at a 10-base read, default filter, writer present. -/
theorem processRead_rejected_spec_witness :
    ((SRead.mk (List.replicate 10 'A')).data.length < 50 ∨
      14 < countOfNs (SRead.mk (List.replicate 10 'A')).data) ∧
    ((processRead true ⟨false, false, false⟩ 14 stubSingleAligner ⟨5, 3⟩
        ⟨List.replicate 10 'A'⟩).2.2 = false ∧
     (processRead true ⟨false, false, false⟩ 14 stubSingleAligner ⟨5, 3⟩
        ⟨List.replicate 10 'A'⟩).1.totalReads = 5 + 1 ∧
     (processRead true ⟨false, false, false⟩ 14 stubSingleAligner ⟨5, 3⟩
        ⟨List.replicate 10 'A'⟩).1.usefulReads = 3 ∧
     (processRead true ⟨false, false, false⟩ 14 stubSingleAligner ⟨5, 3⟩
        ⟨List.replicate 10 'A'⟩).2.1 =
       (if (true : Bool) ∧ passFilter ⟨false, false, false⟩ .NotFound = true then
         [⟨.NotFound, 4294967295⟩] else []) ∧
     ((true : Bool) = true → (⟨false, false, false⟩ : FilterFlags) = ⟨false, false, false⟩ →
       (processRead true ⟨false, false, false⟩ 14 stubSingleAligner ⟨5, 3⟩
          ⟨List.replicate 10 'A'⟩).2.1 = [⟨.NotFound, 4294967295⟩])) :=
  ⟨by decide, processRead_rejected_spec true ⟨false, false, false⟩ 14 stubSingleAligner
      ⟨5, 3⟩ ⟨List.replicate 10 'A'⟩ (by decide)⟩

/-! ### BAM packed sequence codec (src/SNAPLib/Bam.cpp)

BAMAlignment::CodeToSeq is the string "=ACMGRSVTWYHKDBN" (line 155);
SeqToCode is built by the static initializer at lines 222-232: zero
everywhere, then SeqToCode[CodeToSeq[i]] = i for i = 1..15 (so the base =
keeps code 0, the memset value, as do all characters outside the table). -/

/-- Embedding of BAMAlignment::CodeToSeq, src/SNAPLib/Bam.cpp line 155,
indexed by a nibble.  decodeSeq only ever indexes it with values below 16;
the catch-all arm keeps the function total. -/
def codeToSeq (n : Nat) : Char :=
  match n with
  | 0 => '='
  | 1 => 'A'
  | 2 => 'C'
  | 3 => 'M'
  | 4 => 'G'
  | 5 => 'R'
  | 6 => 'S'
  | 7 => 'V'
  | 8 => 'T'
  | 9 => 'W'
  | 10 => 'Y'
  | 11 => 'H'
  | 12 => 'K'
  | 13 => 'D'
  | 14 => 'B'
  | 15 => 'N'
  | _ => '='

/-- Embedding of BAMAlignment::SeqToCode, src/SNAPLib/Bam.cpp lines 156 and
224-227: the inverse table, 0 for every character outside "ACMGRSVTWYHKDBN". -/
def seqToCode (c : Char) : Nat :=
  if c = 'A' then 1
  else if c = 'C' then 2
  else if c = 'M' then 3
  else if c = 'G' then 4
  else if c = 'R' then 5
  else if c = 'S' then 6
  else if c = 'V' then 7
  else if c = 'T' then 8
  else if c = 'W' then 9
  else if c = 'Y' then 10
  else if c = 'H' then 11
  else if c = 'K' then 12
  else if c = 'D' then 13
  else if c = 'B' then 14
  else if c = 'N' then 15
  else 0

/-- Embedding of BAMAlignment::encodeSeq, src/SNAPLib/Bam.cpp lines 206-219:
bases are packed two per byte, the first in the high nibble; an odd trailing
base occupies the high nibble of a final byte with low nibble 0. -/
def encodeSeq : List Char → List Nat
  | [] => []
  | [c] => [seqToCode c <<< 4]
  | c1 :: c2 :: rest => ((seqToCode c1 <<< 4) ||| seqToCode c2) :: encodeSeq rest

/-- Embedding of BAMAlignment::decodeSeq, src/SNAPLib/Bam.cpp lines 162-173:
for i = 0..bases-1 the output character is CodeToSeq of the high nibble of
the current byte when i is even and of the low nibble (advancing to the next
byte) when i is odd.  The loop is unrolled two bases at a time; a byte read
past the end of the array (which the source never does for well-formed
records) is modelled as 0. -/
def decodeSeq (nibbles : List Nat) : Nat → List Char
  | 0 => []
  | 1 => [codeToSeq (nibbles.headD 0 >>> 4)]
  | n + 2 =>
      codeToSeq (nibbles.headD 0 >>> 4) ::
      codeToSeq (nibbles.headD 0 &&& 15) ::
      decodeSeq nibbles.tail n

/-- The sixteen characters of CodeToSeq, the alphabet of valid BAM bases. -/
def bamSeqAlphabet : List Char :=
  ['=', 'A', 'C', 'M', 'G', 'R', 'S', 'V', 'T', 'W', 'Y', 'H', 'K', 'D', 'B', 'N']

/-- Helper for C7: over the alphabet, decoding one packed byte returns both
bases, and decoding the high nibble of an odd trailing byte returns its base.
Closed and finite, checked by evaluation over the 16 x 16 combinations. -/
theorem nibble_roundtrip :
    (∀ c1 ∈ bamSeqAlphabet, ∀ c2 ∈ bamSeqAlphabet,
      codeToSeq (((seqToCode c1 <<< 4) ||| seqToCode c2) >>> 4) = c1 ∧
      codeToSeq (((seqToCode c1 <<< 4) ||| seqToCode c2) &&& 15) = c2) ∧
    (∀ c ∈ bamSeqAlphabet, codeToSeq ((seqToCode c <<< 4) >>> 4) = c) := by
  decide

/-- C7: for every base string over the alphabet "=ACMGRSVTWYHKDBN", decodeSeq
applied to the nibble array produced by encodeSeq and to the original length
yields the string again (the packed-sequence part of the BAM record
round-trip). -/
theorem decodeSeq_encodeSeq_roundtrip :
    ∀ (s : List Char), (∀ c ∈ s, c ∈ bamSeqAlphabet) →
      decodeSeq (encodeSeq s) s.length = s
  | [], _ => rfl
  | [c], h => by
      have hc := h c (by simp)
      simp only [encodeSeq, List.length_singleton, decodeSeq, List.headD_cons]
      rw [nibble_roundtrip.2 c hc]
  | c1 :: c2 :: rest, h => by
      have hc1 := h c1 (by simp)
      have hc2 := h c2 (by simp)
      have hrest : ∀ c ∈ rest, c ∈ bamSeqAlphabet := by
        intro c hc
        exact h c (by simp [hc])
      have ih := decodeSeq_encodeSeq_roundtrip rest hrest
      simp only [encodeSeq, List.length_cons, decodeSeq, List.headD_cons, List.tail_cons]
      rw [(nibble_roundtrip.1 c1 hc1 c2 hc2).1, (nibble_roundtrip.1 c1 hc1 c2 hc2).2, ih]

/-- Witness for C7 at the string ACGTN= (length 6, three packed bytes). -/
theorem decodeSeq_encodeSeq_roundtrip_witness :
    (∀ c ∈ ['A', 'C', 'G', 'T', 'N', '='], c ∈ bamSeqAlphabet) ∧
    decodeSeq (encodeSeq ['A', 'C', 'G', 'T', 'N', '='])
        (['A', 'C', 'G', 'T', 'N', '='].length) = ['A', 'C', 'G', 'T', 'N', '='] :=
  ⟨by decide, decodeSeq_encodeSeq_roundtrip ['A', 'C', 'G', 'T', 'N', '='] (by decide)⟩

/-! ### Writer filter composition (src/unnamed/part_002, DataWriter.cpp)

The FilterType enumeration lives in DataWriter.h, which is not among the
sources.  Modelled from the spec (section 4.8): the four filter kinds are
Read (observation only), Modify (rewrites bytes in place), Copy (duplicates
bytes into a second stage) and Transform (replaces buffer contents), and the
composite type is the stronger of the two, so the enumeration is ordered
Read < Modify < Copy < Transform and std::max is the maximum in that order.
A filter is modelled as its type together with its two callbacks over an
explicit state type; onAdvance receives the byte region it may modify in
place and returns it (possibly rewritten), capturing that in the source both
component filters receive the same data pointer, the second seeing the
modifications of the first. -/

/-- Modelled from the spec: the DataWriter::FilterType enumeration ordered by
strength (DataWriter.h is not among the sources). -/
inductive FilterType where
  | ReadFilter
  | ModifyFilter
  | CopyFilter
  | TransformFilter
deriving DecidableEq, Repr

/-- The underlying integer of a FilterType, fixing the order of the enum. -/
def FilterType.toNat : FilterType → Nat
  | .ReadFilter => 0
  | .ModifyFilter => 1
  | .CopyFilter => 2
  | .TransformFilter => 3

/-- std::max on FilterType values: b when a < b, else a. -/
def ftMax (a b : FilterType) : FilterType :=
  if a.toNat < b.toNat then b else a

/-- A DataWriter::Filter with state type sigma: its type tag, onAdvance
(state, batchOffset, data bytes, location; returns the new state and the data
as left in the buffer) and onNextBatch (state, offset, bytes; returns the new
state and the size_t result). -/
structure DWFilter (σ : Type) where
  filterType : FilterType
  onAdvance : σ → Nat → List Nat → Nat → σ × List Nat
  onNextBatch : σ → Nat → Nat → σ × Nat

/-- Embedding of ComposeFilter, src/unnamed/part_002 lines 307-332: the type
tag is std::max of the two component types; onAdvance runs the onAdvance of a
and then the onAdvance of b on the same byte region; onNextBatch runs a on
the incoming byte count, then b on the count a returned, and returns the
result of b. -/
def composeFilter (a : DWFilter α) (b : DWFilter β) : DWFilter (α × β) where
  filterType := ftMax a.filterType b.filterType
  onAdvance := fun s batchOffset data location =>
    let ra := a.onAdvance s.1 batchOffset data location
    let rb := b.onAdvance s.2 batchOffset ra.2 location
    ((ra.1, rb.1), rb.2)
  onNextBatch := fun s offset bytes =>
    let sa := a.onNextBatch s.1 offset bytes
    let sb := b.onNextBatch s.2 offset sa.2
    ((sa.1, sb.1), sb.2)

/-- A DataWriter::FilterSupplier: its type tag and its getFilter factory. -/
structure DWFilterSupplier (σ : Type) where
  filterType : FilterType
  getFilter : DWFilter σ

/-- Embedding of ComposeFilterSupplier and DataWriterSupplier::compose,
src/unnamed/part_002 lines 334-363: the composite supplier carries the
std::max of the component types and its getFilter composes the component
filters. -/
def composeFilterSupplier (a : DWFilterSupplier α) (b : DWFilterSupplier β) :
    DWFilterSupplier (α × β) where
  filterType := ftMax a.filterType b.filterType
  getFilter := composeFilter a.getFilter b.getFilter

/-- Helper: ftMax is the maximum for the strength order: both arguments are
at most the result, and the result is one of the arguments. -/
theorem ftMax_is_max (a b : FilterType) :
    a.toNat ≤ (ftMax a b).toNat ∧ b.toNat ≤ (ftMax a b).toNat ∧
    (ftMax a b = a ∨ ftMax a b = b) := by
  cases a <;> cases b <;> decide

/-- C8: compose(a, b) produces a filter whose filterType is the stronger
(maximum) of the types of a and b, whose onAdvance applies the onAdvance of a
and then the onAdvance of b to the same bytes (b seeing what a left in the
buffer), and whose onNextBatch applies a, then applies b to the byte count a
returned, and returns the result of b. -/
theorem composeFilter_spec (a : DWFilterSupplier α) (b : DWFilterSupplier β)
    (s : α × β) (batchOffset location offset bytes : Nat) (data : List Nat) :
    (composeFilterSupplier a b).getFilter = composeFilter a.getFilter b.getFilter ∧
    (composeFilterSupplier a b).filterType = ftMax a.filterType b.filterType ∧
    a.filterType.toNat ≤ (composeFilterSupplier a b).filterType.toNat ∧
    b.filterType.toNat ≤ (composeFilterSupplier a b).filterType.toNat ∧
    ((composeFilterSupplier a b).filterType = a.filterType ∨
     (composeFilterSupplier a b).filterType = b.filterType) ∧
    (composeFilter a.getFilter b.getFilter).filterType =
      ftMax a.getFilter.filterType b.getFilter.filterType ∧
    (composeFilter a.getFilter b.getFilter).onAdvance s batchOffset data location =
      ((( a.getFilter.onAdvance s.1 batchOffset data location).1,
        (b.getFilter.onAdvance s.2 batchOffset
          (a.getFilter.onAdvance s.1 batchOffset data location).2 location).1),
       (b.getFilter.onAdvance s.2 batchOffset
          (a.getFilter.onAdvance s.1 batchOffset data location).2 location).2) ∧
    (composeFilter a.getFilter b.getFilter).onNextBatch s offset bytes =
      ((( a.getFilter.onNextBatch s.1 offset bytes).1,
        (b.getFilter.onNextBatch s.2 offset
          (a.getFilter.onNextBatch s.1 offset bytes).2).1),
       (b.getFilter.onNextBatch s.2 offset
          (a.getFilter.onNextBatch s.1 offset bytes).2).2) := by
  have hm := ftMax_is_max a.filterType b.filterType
  exact ⟨rfl, rfl, hm.1, hm.2.1, hm.2.2, rfl, rfl, rfl⟩

/-! ### Mapping quality (src/SNAPLib/mapq.h, computeMAPQ)

Doubles are modelled as real numbers and the C log10 as the real base-10
logarithm.  The C cast (int) truncates toward zero; truncToInt models it.
The C integer division in the popular-seed penalty acts on a nonnegative
numerator and the positive constant 2, where the Lean Int division agrees
with it. -/

/-- The C cast from double to int: truncation toward zero (for the values in
range of int, which all values cast in computeMAPQ are). -/
noncomputable def truncToInt (x : ℝ) : ℤ :=
  if 0 ≤ x then ⌊x⌋ else -⌊-x⌋

/-- The C log10 on doubles, modelled as the real base-10 logarithm. -/
noncomputable def log10 (x : ℝ) : ℝ :=
  Real.logb 10 x

/-- The first baseMAPQ computation of computeMAPQ, src/SNAPLib/mapq.h lines
72-78, applied to the already clamped probabilityOfAllCandidates:
69 when the correctness probability reaches 1, otherwise
min(69, (int)(-10 * log10(1 - correctnessProbability))). -/
noncomputable def mapqBase (pAllClamped pBest : ℝ) : ℤ :=
  if 1 ≤ pBest / pAllClamped then 69
  else min 69 (truncToInt (-10 * log10 (1 - pBest / pAllClamped)))

/-- The Hamming-distance penalty of computeMAPQ, src/SNAPLib/mapq.h lines
80-87. -/
def mapqHamming (usedHamming : Bool) (b : ℤ) : ℤ :=
  if usedHamming then (if 26 < b then 26 else if 10 < b then b - 1 else b) else b

/-- The similarity-map penalty of computeMAPQ, src/SNAPLib/mapq.h lines
89-95: applied only when a similarity map is present. -/
noncomputable def mapqSimilarity (similarityMapPresent : Bool)
    (biggestClusterScored : ℝ) (b : ℤ) : ℤ :=
  if similarityMapPresent then truncToInt (max 0 ((b : ℝ) - log10 biggestClusterScored * 3))
  else b

/-- Embedding of computeMAPQ, src/SNAPLib/mapq.h lines 33-108.  The function
first clamps probabilityOfAllCandidates up to probabilityOfBestCandidate
(line 45); returns 70 when the clamped probabilityOfAllCandidates equals
probabilityOfBestCandidate with no popular seeds skipped, score below 5 and
no Hamming scoring (lines 47-50); otherwise computes baseMAPQ from the
correctness probability, applies the Hamming and similarity-map adjustments,
subtracts max(0, popularSeedsSkipped - 10) / 2 and clamps at 0 (lines
72-107).  The division 0 / 0 that the C code reaches when both probabilities
are zero (an IEEE NaN) is modelled by the Lean convention 0 / 0 = 0. -/
noncomputable def computeMAPQ (probabilityOfAllCandidates probabilityOfBestCandidate : ℝ)
    (score popularSeedsSkipped : ℤ) (similarityMapPresent : Bool)
    (biggestClusterScored : ℝ) (usedHamming : Bool) : ℤ :=
  if max probabilityOfAllCandidates probabilityOfBestCandidate = probabilityOfBestCandidate
      ∧ popularSeedsSkipped = 0 ∧ score < 5 ∧ usedHamming = false then 70
  else
    max 0
      (mapqSimilarity similarityMapPresent biggestClusterScored
        (mapqHamming usedHamming
          (mapqBase (max probabilityOfAllCandidates probabilityOfBestCandidate)
            probabilityOfBestCandidate)) -
       max 0 (popularSeedsSkipped - 10) / 2)

/-- The claim C1 as stated, written from its own words (for comparison with
the source embedding): 70 exactly when probabilityOfAllCandidates equals
probabilityOfBestCandidate with popularSeedsSkipped 0 and score below 5;
otherwise max(0, b - max(0, popularSeedsSkipped - 10) / 2) with b computed
from the unclamped ratio pBest / pAll. -/
noncomputable def claimMAPQ (pAll pBest : ℝ) (score pss : ℤ) : ℤ :=
  if pAll = pBest ∧ pss = 0 ∧ score < 5 then 70
  else
    max 0
      ((if 1 ≤ pBest / pAll then 69 else min 69 ⌊-10 * log10 (1 - pBest / pAll)⌋) -
       max 0 (pss - 10) / 2)

/-- The claim C1 as amended: the 70 condition is pAll at most pBest (the
source first clamps pAll up to pBest, so equality after clamping), and the
ratio in b is taken against the clamped denominator max(pAll, pBest). -/
noncomputable def claimAmendedMAPQ (pAll pBest : ℝ) (score pss : ℤ) : ℤ :=
  if pAll ≤ pBest ∧ pss = 0 ∧ score < 5 then 70
  else
    max 0
      ((if 1 ≤ pBest / max pAll pBest then 69
        else min 69 ⌊-10 * log10 (1 - pBest / max pAll pBest)⌋) -
       max 0 (pss - 10) / 2)

/-- C1 counterexample: a call with probabilityOfAllCandidates 1/2 below
probabilityOfBestCandidate 1 (the situation the clamp at line 45 exists for),
no popular seeds skipped, score 0.  The code clamps and returns 70; the claim
as stated requires the two probabilities to be equal for a 70 and prescribes
max(0, 69 - 0) = 69 here, since pBest / pAll = 2 is at least 1. -/
theorem computeMAPQ_claim_counterexample :
    computeMAPQ (1 / 2) 1 0 0 false 1 false = 70 ∧
    claimMAPQ (1 / 2) 1 0 0 = 69 ∧
    ((1 : ℝ) / 2) ≠ 1 := by
  refine ⟨?_, ?_, by norm_num⟩
  · unfold computeMAPQ
    rw [if_pos]
    exact ⟨by norm_num, rfl, by norm_num, rfl⟩
  · unfold claimMAPQ
    rw [if_neg]
    · rw [if_pos (by norm_num)]
      decide
    · rintro ⟨h, -⟩
      norm_num at h

/-- Helper for C1: on the else branch the correctness probability lies in
[0, 1), so the C truncation toward zero is the floor. -/
theorem mapqBase_eq_floor (pAllClamped pBest : ℝ) (h0 : 0 ≤ pBest)
    (hle : pBest ≤ pAllClamped) :
    mapqBase pAllClamped pBest =
      (if 1 ≤ pBest / pAllClamped then 69
       else min 69 ⌊-10 * log10 (1 - pBest / pAllClamped)⌋) := by
  unfold mapqBase
  by_cases hr : 1 ≤ pBest / pAllClamped
  · rw [if_pos hr, if_pos hr]
  · rw [if_neg hr, if_neg hr]
    have hr1 : pBest / pAllClamped < 1 := lt_of_not_le hr
    have hr0 : 0 ≤ pBest / pAllClamped := div_nonneg h0 (le_trans h0 hle)
    have hlog : log10 (1 - pBest / pAllClamped) ≤ 0 := by
      unfold log10
      exact Real.logb_nonpos (by norm_num) (by linarith) (by linarith)
    have hx : 0 ≤ -10 * log10 (1 - pBest / pAllClamped) := by nlinarith
    unfold truncToInt
    rw [if_pos hx]

/-- Helper for C1: mapqBase never exceeds 69. -/
theorem mapqBase_le (pAllClamped pBest : ℝ) : mapqBase pAllClamped pBest ≤ 69 := by
  unfold mapqBase
  by_cases hr : 1 ≤ pBest / pAllClamped
  · rw [if_pos hr]
  · rw [if_neg hr]
    exact min_le_left _ _

/-- C1 (amended): for every call with probabilityOfBestCandidate nonnegative
(the _ASSERT at line 46), usedHamming false and no similarity map, the result
is 70 exactly when probabilityOfAllCandidates is at most
probabilityOfBestCandidate (equal after the clamp at line 45),
popularSeedsSkipped is 0 and score < 5; otherwise the result is
max(0, b - max(0, popularSeedsSkipped - 10) / 2) where b = 69 if
pBest / max(pAll, pBest) reaches 1 and b = min(69, floor(-10 log10(1 - r)))
otherwise; and in every case the result lies in [0, 70]. -/
theorem computeMAPQ_spec_amended (pAll pBest : ℝ) (score pss : ℤ)
    (biggestClusterScored : ℝ) (hBest : 0 ≤ pBest) :
    computeMAPQ pAll pBest score pss false biggestClusterScored false =
      claimAmendedMAPQ pAll pBest score pss ∧
    (computeMAPQ pAll pBest score pss false biggestClusterScored false = 70 ↔
      (pAll ≤ pBest ∧ pss = 0 ∧ score < 5)) ∧
    0 ≤ computeMAPQ pAll pBest score pss false biggestClusterScored false ∧
    computeMAPQ pAll pBest score pss false biggestClusterScored false ≤ 70 := by
  have hclamp : pBest ≤ max pAll pBest := le_max_right _ _
  have hcond : (max pAll pBest = pBest ∧ pss = 0 ∧ score < 5 ∧ (false : Bool) = false) ↔
      (pAll ≤ pBest ∧ pss = 0 ∧ score < 5) := by
    constructor
    · rintro ⟨h1, h2, h3, -⟩
      exact ⟨max_eq_right_iff.mp h1, h2, h3⟩
    · rintro ⟨h1, h2, h3⟩
      exact ⟨max_eq_right_iff.mpr h1, h2, h3, rfl⟩
  have hpen : 0 ≤ max 0 (pss - 10) / 2 := by
    have : (0 : ℤ) ≤ max 0 (pss - 10) := le_max_left _ _
    omega
  have hbase := mapqBase_le (max pAll pBest) pBest
  have heq : computeMAPQ pAll pBest score pss false biggestClusterScored false =
      claimAmendedMAPQ pAll pBest score pss := by
    unfold computeMAPQ claimAmendedMAPQ
    by_cases hc : pAll ≤ pBest ∧ pss = 0 ∧ score < 5
    · rw [if_pos (hcond.mpr hc), if_pos hc]
    · rw [if_neg (fun hx => hc (hcond.mp hx)), if_neg hc]
      unfold mapqSimilarity mapqHamming
      simp only [Bool.false_eq_true, if_false]
      rw [mapqBase_eq_floor (max pAll pBest) pBest hBest hclamp]
  have hle70 : computeMAPQ pAll pBest score pss false biggestClusterScored false ≤ 70 := by
    unfold computeMAPQ
    by_cases hc : max pAll pBest = pBest ∧ pss = 0 ∧ score < 5 ∧ (false : Bool) = false
    · rw [if_pos hc]
    · rw [if_neg hc]
      unfold mapqSimilarity mapqHamming
      simp only [Bool.false_eq_true, if_false]
      omega
  have h0le : 0 ≤ computeMAPQ pAll pBest score pss false biggestClusterScored false := by
    unfold computeMAPQ
    by_cases hc : max pAll pBest = pBest ∧ pss = 0 ∧ score < 5 ∧ (false : Bool) = false
    · rw [if_pos hc]; norm_num
    · rw [if_neg hc]
      exact le_max_left _ _
  refine ⟨heq, ?_, h0le, hle70⟩
  constructor
  · intro h70
    by_contra hc
    have : computeMAPQ pAll pBest score pss false biggestClusterScored false ≤ 69 := by
      unfold computeMAPQ
      rw [if_neg (fun hx => hc (hcond.mp hx))]
      unfold mapqSimilarity mapqHamming
      simp only [Bool.false_eq_true, if_false]
      omega
    omega
  · intro hc
    unfold computeMAPQ
    rw [if_pos (hcond.mpr hc)]

/-- Witness for C1 at pAll = 1, pBest = 1, score 0, no skipped seeds: the 70
branch. -/
theorem computeMAPQ_spec_witness :
    (0 : ℝ) ≤ 1 ∧
    (computeMAPQ 1 1 0 0 false 1 false = claimAmendedMAPQ 1 1 0 0 ∧
     (computeMAPQ 1 1 0 0 false 1 false = 70 ↔ ((1 : ℝ) ≤ 1 ∧ (0 : ℤ) = 0 ∧ (0 : ℤ) < 5)) ∧
     0 ≤ computeMAPQ 1 1 0 0 false 1 false ∧
     computeMAPQ 1 1 0 0 false 1 false ≤ 70) :=
  ⟨by norm_num, computeMAPQ_spec_amended 1 1 0 0 1 (by norm_num)⟩

/-! ### Hit-location ring buffer (src/unnamed/part_003, HitLocationRingBuffer)

HitLocationRingBuffer, src/unnamed/part_003 lines 200-281: a fixed-size
circular array with head (next write position) and tail indices; the stored
entries are the slots tail, tail+1, ..., head-1 modulo bufferSize.  The
matchProbability field is a double used only as stored data here, modelled
as a rational.  The buffer array is modelled as a function from slot index
to entry. -/

/-- A HitLocation, src/unnamed/part_003 lines 175-198. -/
structure HitLocation where
  genomeLocation : Nat
  genomeLocationOffset : Int
  seedOffset : Nat
  isScored : Bool
  score : Nat
  maxK : Nat
  matchProbability : ℚ
  bestPossibleScore : Nat
  genomeLocationOfNearestMatchedCandidate : Nat
deriving DecidableEq, Repr

/-- The value of an untouched buffer slot (the C++ array is allocated
uninitialized; the concrete choice never matters because only slots between
tail and head are read). -/
def emptyHitLocation : HitLocation :=
  ⟨0, 0, 0, false, 0, 0, 0, 0, 0⟩

/-- The HitLocationRingBuffer state, src/unnamed/part_003 lines 275-280. -/
structure HitLocationRingBuffer where
  bufferSize : Nat
  head : Nat
  tail : Nat
  buffer : Nat → HitLocation

namespace HitLocationRingBuffer

/-- The constructor, src/unnamed/part_003 lines 202-205: head and tail start
at 0. -/
def init (bufferSize : Nat) : HitLocationRingBuffer :=
  ⟨bufferSize, 0, 0, fun _ => emptyHitLocation⟩

/-- The number of stored entries: the distance from tail to head around the
ring. -/
def count (b : HitLocationRingBuffer) : Nat :=
  (b.head + b.bufferSize - b.tail) % b.bufferSize

/-- The stored entries in order, from the tail slot to the slot before head. -/
def contents (b : HitLocationRingBuffer) : List HitLocation :=
  (List.range (count b)).map fun i => b.buffer ((b.tail + i) % b.bufferSize)

/-- Well-formedness: a positive buffer size with both indices inside the
array, as every reachable state of the class has. -/
@[reducible] def WF (b : HitLocationRingBuffer) : Prop :=
  0 < b.bufferSize ∧ b.head < b.bufferSize ∧ b.tail < b.bufferSize

/-- The entry the scored insertHead overload writes before advancing head
(src/unnamed/part_003 lines 219-223): genomeLocation, seedOffset and
bestPossibleScore are set, isScored cleared, the nearest-matched-candidate
location set to 0xffffffff, the remaining fields keeping whatever the slot
held. -/
def newEntry (b : HitLocationRingBuffer) (genomeLocation seedOffset bestPossibleScore : Nat) :
    HitLocation :=
  { b.buffer b.head with
    genomeLocation := genomeLocation
    seedOffset := seedOffset
    isScored := false
    genomeLocationOfNearestMatchedCandidate := 4294967295
    bestPossibleScore := bestPossibleScore }

/-- Writing an entry at head and advancing head: the common shape of both
insertHead overloads. -/
def pushHead (b : HitLocationRingBuffer) (e : HitLocation) : HitLocationRingBuffer :=
  { b with
    buffer := fun i => if i = b.head then e else b.buffer i
    head := (b.head + 1) % b.bufferSize }

/-- Embedding of the unscored insertHead, src/unnamed/part_003 lines 214-225. -/
def insertHead (b : HitLocationRingBuffer)
    (genomeLocation seedOffset bestPossibleScore : Nat) : HitLocationRingBuffer :=
  pushHead b (newEntry b genomeLocation seedOffset bestPossibleScore)

/-- Embedding of the scored insertHead, src/unnamed/part_003 lines 227-234:
it calls the unscored overload (passing score as bestPossibleScore), then
rewrites the just-inserted slot at (head + bufferSize - 1) % bufferSize with
isScored true, the score and the match probability. -/
def insertHeadScored (b : HitLocationRingBuffer)
    (genomeLocation seedOffset score : Nat) (matchProbability : ℚ) :
    HitLocationRingBuffer :=
  let b1 := insertHead b genomeLocation seedOffset score
  let j := (b1.head + b1.bufferSize - 1) % b1.bufferSize
  { b1 with
    buffer := fun i =>
      if i = j then
        { b1.buffer j with
          isScored := true
          score := score
          matchProbability := matchProbability }
      else b1.buffer i }

/-- Embedding of clear, src/unnamed/part_003 lines 236-239: head = tail = 0. -/
def clear (b : HitLocationRingBuffer) : HitLocationRingBuffer :=
  { b with head := 0, tail := 0 }

/-- The loop of trimAboveLocation (src/unnamed/part_003 lines 241-246),
advancing tail while it differs from head and the tail entry lies above the
limit.  The C loop pops one stored entry per iteration and stops no later
than when tail reaches head, so on a well-formed state the count of stored
entries bounds its iterations; the fuel argument is set to that count and
never runs out before the loop condition fails. -/
def trimAux (bufferSize headIdx : Nat) (buffer : Nat → HitLocation)
    (highestGenomeLocatonToKeep : Nat) : Nat → Nat → Nat
  | tail, 0 => tail
  | tail, fuel + 1 =>
    if tail ≠ headIdx ∧ highestGenomeLocatonToKeep < (buffer tail).genomeLocation then
      trimAux bufferSize headIdx buffer highestGenomeLocatonToKeep
        ((tail + 1) % bufferSize) fuel
    else tail

/-- Embedding of trimAboveLocation, src/unnamed/part_003 lines 241-246. -/
def trimAboveLocation (b : HitLocationRingBuffer) (highestGenomeLocatonToKeep : Nat) :
    HitLocationRingBuffer :=
  { b with
    tail := trimAux b.bufferSize b.head b.buffer highestGenomeLocatonToKeep
      b.tail (count b) }

/-- Embedding of getTail, src/unnamed/part_003 lines 254-257. -/
def getTail (b : HitLocationRingBuffer) : Option HitLocation :=
  if b.head = b.tail then none else some (b.buffer b.tail)

/-- Embedding of getHead, src/unnamed/part_003 lines 259-266: head is the
next place to write, so the head entry is the previous slot. -/
def getHead (b : HitLocationRingBuffer) : Option HitLocation :=
  if b.head = b.tail then none
  else some (b.buffer ((b.head + b.bufferSize - 1) % b.bufferSize))

/-- The preconditions the _ASSERTs of insertHead state (src/unnamed/part_003
lines 216-217): the buffer does not overflow, and the inserted location is
strictly below the current head entry (insertion in strictly descending
order). -/
@[reducible] def insertPre (b : HitLocationRingBuffer) (genomeLocation : Nat) : Prop :=
  (b.head + 1) % b.bufferSize ≠ b.tail ∧
  (b.head = b.tail ∨
    genomeLocation < (b.buffer ((b.head + b.bufferSize - 1) % b.bufferSize)).genomeLocation)

end HitLocationRingBuffer

/-- Strictly descending genome locations between two hit locations. -/
def hlDesc (x y : HitLocation) : Prop :=
  y.genomeLocation < x.genomeLocation

instance : IsTrans HitLocation hlDesc :=
  ⟨fun _ _ _ h1 h2 => lt_trans h2 h1⟩

instance : DecidableRel hlDesc :=
  fun x y => Nat.decLt y.genomeLocation x.genomeLocation

namespace HitLocationRingBuffer

/-- The order the buffer actually maintains: walking the stored entries from
tail to head, genome locations strictly decrease. -/
@[reducible] def DescInv (b : HitLocationRingBuffer) : Prop :=
  (contents b).Chain' hlDesc

end HitLocationRingBuffer

/-- Helper: the last element of a list is a member. -/
theorem getLast?_mem_of_eq_some {α : Type} :
    ∀ (l : List α) (x : α), l.getLast? = some x → x ∈ l := by
  intro l
  induction l with
  | nil => intro x hx; simp at hx
  | cons a l ih =>
    intro x hx
    cases l with
    | nil => simp at hx; subst hx; exact List.mem_singleton_self a
    | cons c l2 =>
      rw [List.getLast?_cons_cons] at hx
      exact List.mem_cons_of_mem a (ih x hx)

/-- Helper: a remainder modulo s of a value below 2s, written without mod. -/
theorem mod_two_cases (a s : Nat) (_hs : 0 < s) (h : a < 2 * s) :
    a % s = if a < s then a else a - s := by
  by_cases h1 : a < s
  · rw [if_pos h1, Nat.mod_eq_of_lt h1]
  · rw [if_neg h1, Nat.mod_eq_sub_mod (le_of_not_lt h1), Nat.mod_eq_of_lt (by omega)]

/-- Helper: the stored-entry count is zero exactly when head equals tail. -/
theorem ring_count_zero_iff (s h t : Nat) (hs : 0 < s) (hh : h < s) (ht : t < s) :
    (h + s - t) % s = 0 ↔ h = t := by
  rw [mod_two_cases _ s hs (by omega)]
  split_ifs <;> omega

/-- Helper: stepping the tail forward removes one from the count. -/
theorem ring_count_step (s h t : Nat) (hs : 0 < s) (hh : h < s) (ht : t < s)
    (hne : h ≠ t) :
    (h + s - (t + 1) % s) % s = (h + s - t) % s - 1 := by
  rw [mod_two_cases (t + 1) s hs (by omega)]
  split_ifs with h1
  · rw [mod_two_cases _ s hs (by omega), mod_two_cases _ s hs (by omega)]
    split_ifs <;> omega
  · rw [mod_two_cases _ s hs (by omega), mod_two_cases _ s hs (by omega)]
    split_ifs <;> omega

/-- Helper: advancing the head adds one to the count when the buffer does not
overflow. -/
theorem ring_count_push (s h t : Nat) (hs : 0 < s) (hh : h < s) (ht : t < s)
    (hne : (h + 1) % s ≠ t) :
    ((h + 1) % s + s - t) % s = (h + s - t) % s + 1 := by
  rw [mod_two_cases (h + 1) s hs (by omega)] at hne ⊢
  split_ifs at hne ⊢ with h1
  · rw [mod_two_cases _ s hs (by omega), mod_two_cases _ s hs (by omega)]
    split_ifs <;> omega
  · rw [mod_two_cases _ s hs (by omega), mod_two_cases _ s hs (by omega)]
    split_ifs <;> omega

/-- Helper: tail plus the count lands on head. -/
theorem ring_tail_add_count (s h t : Nat) (hs : 0 < s) (hh : h < s) (ht : t < s) :
    (t + (h + s - t) % s) % s = h := by
  rw [mod_two_cases (h + s - t) s hs (by omega)]
  split_ifs with h1
  · rw [mod_two_cases _ s hs (by omega)]
    split_ifs <;> omega
  · rw [mod_two_cases _ s hs (by omega)]
    split_ifs <;> omega

/-- Helper: a stored slot strictly before the count is not the head slot. -/
theorem ring_idx_ne_head (s h t i : Nat) (hs : 0 < s) (hh : h < s) (ht : t < s)
    (hi : i < (h + s - t) % s) : (t + i) % s ≠ h := by
  have his : i < s := lt_of_lt_of_le hi (le_of_lt (Nat.mod_lt _ hs))
  rw [mod_two_cases (h + s - t) s hs (by omega)] at hi
  rw [mod_two_cases (t + i) s hs (by omega)]
  by_cases h1 : h + s - t < s
  · rw [if_pos h1] at hi
    split_ifs <;> omega
  · rw [if_neg h1] at hi
    split_ifs <;> omega

/-- Helper: the slot of the last stored entry is the slot before head. -/
theorem ring_last_idx (s h t : Nat) (hs : 0 < s) (hh : h < s) (ht : t < s)
    (hne : h ≠ t) :
    (t + ((h + s - t) % s - 1)) % s = (h + s - 1) % s := by
  rw [mod_two_cases (h + s - t) s hs (by omega)]
  split_ifs with h1
  · rw [mod_two_cases _ s hs (by omega), mod_two_cases _ s hs (by omega)]
    split_ifs <;> omega
  · rw [mod_two_cases _ s hs (by omega), mod_two_cases _ s hs (by omega)]
    split_ifs <;> omega

namespace HitLocationRingBuffer

/-- Helper: a nonempty buffer lists its tail entry first, followed by the
contents of the buffer with the tail stepped forward. -/
theorem contents_step (b : HitLocationRingBuffer) (hWF : WF b)
    (hne : b.head ≠ b.tail) :
    contents b =
      b.buffer b.tail :: contents { b with tail := (b.tail + 1) % b.bufferSize } := by
  obtain ⟨hs, hh, ht⟩ := hWF
  unfold contents count
  dsimp only
  have hstep := ring_count_step b.bufferSize b.head b.tail hs hh ht hne
  have hzero := ring_count_zero_iff b.bufferSize b.head b.tail hs hh ht
  obtain ⟨n, hn⟩ : ∃ n, (b.head + b.bufferSize - b.tail) % b.bufferSize = n + 1 := by
    refine ⟨(b.head + b.bufferSize - b.tail) % b.bufferSize - 1, ?_⟩
    have : (b.head + b.bufferSize - b.tail) % b.bufferSize ≠ 0 := fun hcontra =>
      hne (hzero.mp hcontra)
    omega
  rw [hn, hstep, hn]
  simp only [Nat.add_sub_cancel]
  rw [List.range_succ_eq_map, List.map_cons, List.map_map]
  congr 1
  · rw [Nat.add_zero, Nat.mod_eq_of_lt ht]
  · rw [List.map_eq_map_iff]
    intro i hi
    simp only [Function.comp_apply]
    congr 1
    rw [Nat.mod_add_mod]
    congr 1
    omega

/-- Helper: pushing an entry at head appends it to the contents, provided the
buffer does not overflow. -/
theorem contents_pushHead (b : HitLocationRingBuffer) (e : HitLocation) (hWF : WF b)
    (hpre : (b.head + 1) % b.bufferSize ≠ b.tail) :
    contents (pushHead b e) = contents b ++ [e] := by
  obtain ⟨hs, hh, ht⟩ := hWF
  unfold contents count pushHead
  dsimp only
  rw [ring_count_push b.bufferSize b.head b.tail hs hh ht hpre]
  rw [List.range_succ, List.map_append]
  congr 1
  · rw [List.map_eq_map_iff]
    intro i hi
    rw [if_neg (ring_idx_ne_head b.bufferSize b.head b.tail i hs hh ht
      (List.mem_range.mp hi))]
  · simp only [List.map_cons, List.map_nil]
    rw [if_pos (ring_tail_add_count b.bufferSize b.head b.tail hs hh ht)]

/-- Helper: the last stored entry of a nonempty buffer is the slot before
head, the entry getHead returns. -/
theorem contents_getLast (b : HitLocationRingBuffer) (hWF : WF b)
    (hne : b.head ≠ b.tail) :
    (contents b).getLast? =
      some (b.buffer ((b.head + b.bufferSize - 1) % b.bufferSize)) := by
  obtain ⟨hs, hh, ht⟩ := hWF
  unfold contents count
  have hzero := ring_count_zero_iff b.bufferSize b.head b.tail hs hh ht
  obtain ⟨n, hn⟩ : ∃ n, (b.head + b.bufferSize - b.tail) % b.bufferSize = n + 1 := by
    refine ⟨(b.head + b.bufferSize - b.tail) % b.bufferSize - 1, ?_⟩
    have : (b.head + b.bufferSize - b.tail) % b.bufferSize ≠ 0 := fun hcontra =>
      hne (hzero.mp hcontra)
    omega
  rw [hn, List.range_succ, List.map_append]
  simp only [List.map_cons, List.map_nil]
  rw [List.getLast?_concat]
  congr 2
  have hlast := ring_last_idx b.bufferSize b.head b.tail hs hh ht hne
  rw [hn] at hlast
  simpa using hlast

/-- Helper: clearing empties the buffer. -/
theorem contents_clear (b : HitLocationRingBuffer) : contents (clear b) = [] := by
  unfold contents count clear
  simp

/-- Helper: pushing at head preserves well-formedness. -/
theorem WF_pushHead (b : HitLocationRingBuffer) (e : HitLocation) (hWF : WF b) :
    WF (pushHead b e) := by
  obtain ⟨hs, hh, ht⟩ := hWF
  exact ⟨hs, Nat.mod_lt _ hs, ht⟩

/-- Helper: pushing an entry below the previous head entry preserves the
descending order. -/
theorem Inv_pushHead (b : HitLocationRingBuffer) (e : HitLocation) (hWF : WF b)
    (hpre : (b.head + 1) % b.bufferSize ≠ b.tail)
    (hlt : b.head = b.tail ∨
      e.genomeLocation <
        (b.buffer ((b.head + b.bufferSize - 1) % b.bufferSize)).genomeLocation)
    (hInv : DescInv b) : DescInv (pushHead b e) := by
  unfold DescInv
  rw [contents_pushHead b e hWF hpre, List.chain'_append]
  refine ⟨hInv, List.chain'_singleton e, ?_⟩
  intro x hx y hy
  simp only [List.head?_cons, Option.mem_def, Option.some.injEq] at hy
  subst hy
  by_cases hht : b.head = b.tail
  · have hempty : contents b = [] := by
      unfold contents
      have : count b = 0 := by
        unfold count
        exact (ring_count_zero_iff b.bufferSize b.head b.tail hWF.1 hWF.2.1 hWF.2.2).mpr hht
      rw [this]
      rfl
    rw [hempty] at hx
    simp at hx
  · rw [contents_getLast b hWF hht] at hx
    simp only [Option.mem_def, Option.some.injEq] at hx
    subst hx
    rcases hlt with heq | hlt
    · exact absurd heq hht
    · exact hlt

/-- Helper: the scored insertHead overload equals a single push of the fully
written entry (the slot it rewrites after the unscored insert is exactly the
slot the insert filled). -/
theorem insertHeadScored_eq (b : HitLocationRingBuffer) (hWF : WF b)
    (genomeLocation seedOffset score : Nat) (matchProbability : ℚ) :
    insertHeadScored b genomeLocation seedOffset score matchProbability =
      pushHead b
        { newEntry b genomeLocation seedOffset score with
          isScored := true
          score := score
          matchProbability := matchProbability } := by
  obtain ⟨hs, hh, ht⟩ := hWF
  have hj : ((b.head + 1) % b.bufferSize + b.bufferSize - 1) % b.bufferSize = b.head := by
    rw [mod_two_cases (b.head + 1) b.bufferSize hs (by omega)]
    split_ifs with h1
    · rw [mod_two_cases _ b.bufferSize hs (by omega)]
      split_ifs <;> omega
    · rw [mod_two_cases _ b.bufferSize hs (by omega)]
      split_ifs <;> omega
  unfold insertHeadScored insertHead pushHead
  simp only [hj]
  congr 1
  funext i
  by_cases hi : i = b.head
  · subst hi
    simp
  · simp [hi]

/-- Helper: the trim loop keeps the tail inside the array and keeps the
stored entries strictly descending. -/
theorem trimAux_preserves (limit : Nat) :
    ∀ (fuel : Nat) (b : HitLocationRingBuffer), WF b → fuel = count b → DescInv b →
      WF { b with
            tail := trimAux b.bufferSize b.head b.buffer limit b.tail fuel } ∧
      DescInv { b with
            tail := trimAux b.bufferSize b.head b.buffer limit b.tail fuel } := by
  intro fuel
  induction fuel with
  | zero =>
    intro b hWF hfuel hInv
    exact ⟨hWF, hInv⟩
  | succ fuel ih =>
    intro b hWF hfuel hInv
    obtain ⟨hs, hh, ht⟩ := hWF
    unfold trimAux
    by_cases hcond : b.tail ≠ b.head ∧ limit < (b.buffer b.tail).genomeLocation
    · rw [if_pos hcond]
      have hne : b.head ≠ b.tail := fun hcontra => hcond.1 hcontra.symm
      have hWF2 : WF { b with tail := (b.tail + 1) % b.bufferSize } :=
        ⟨hs, hh, Nat.mod_lt _ hs⟩
      have hcount2 : fuel = count { b with tail := (b.tail + 1) % b.bufferSize } := by
        have hstep := ring_count_step b.bufferSize b.head b.tail hs hh ht hne
        unfold count at hfuel ⊢
        dsimp only at hfuel ⊢
        omega
      have hInv2 : DescInv { b with tail := (b.tail + 1) % b.bufferSize } := by
        unfold DescInv at hInv ⊢
        rw [contents_step b ⟨hs, hh, ht⟩ hne] at hInv
        exact hInv.tail
      exact ih { b with tail := (b.tail + 1) % b.bufferSize } hWF2 hcount2 hInv2
    · rw [if_neg hcond]
      exact ⟨⟨hs, hh, ht⟩, hInv⟩

/-- Helper: a buffer with descending contents lists every entry at most the
tail entry. -/
theorem tail_entry_is_highest (b : HitLocationRingBuffer) (hWF : WF b)
    (hInv : DescInv b) :
    ∀ e ∈ contents b, ∀ x ∈ getTail b, e.genomeLocation ≤ x.genomeLocation := by
  intro e he x hx
  unfold getTail at hx
  by_cases hht : b.head = b.tail
  · rw [if_pos hht] at hx
    simp at hx
  · rw [if_neg hht] at hx
    simp only [Option.mem_def, Option.some.injEq] at hx
    subst hx
    have hstep := contents_step b hWF hht
    have hpair : (contents b).Pairwise hlDesc := List.chain'_iff_pairwise.mp hInv
    rw [hstep] at hpair he
    rcases List.mem_cons.mp he with rfl | hmem
    · exact le_refl _
    · exact le_of_lt ((List.pairwise_cons.mp hpair).1 e hmem)

/-- Helper: in a pairwise-descending list the last element is at most every
element. -/
theorem pairwise_getLast_le :
    ∀ (l : List HitLocation), l.Pairwise hlDesc →
      ∀ e ∈ l, ∀ x, l.getLast? = some x → x.genomeLocation ≤ e.genomeLocation := by
  intro l
  induction l with
  | nil => intro _ e he; simp at he
  | cons a l ih =>
    intro hp e he x hx
    cases l with
    | nil =>
      simp only [List.getLast?_singleton, Option.some.injEq] at hx
      subst hx
      simp only [List.mem_singleton] at he
      subst he
      exact le_refl _
    | cons c l2 =>
      rw [List.getLast?_cons_cons] at hx
      rcases List.mem_cons.mp he with rfl | hmem
      · have hxmem : x ∈ c :: l2 := getLast?_mem_of_eq_some (c :: l2) x hx
        exact le_of_lt ((List.pairwise_cons.mp hp).1 x hxmem)
      · exact ih (List.pairwise_cons.mp hp).2 e hmem x hx

/-- Helper: a buffer with descending contents lists the head entry at most
every entry. -/
theorem head_entry_is_lowest (b : HitLocationRingBuffer) (hWF : WF b)
    (hInv : DescInv b) :
    ∀ e ∈ contents b, ∀ x ∈ getHead b, x.genomeLocation ≤ e.genomeLocation := by
  intro e he x hx
  unfold getHead at hx
  by_cases hht : b.head = b.tail
  · rw [if_pos hht] at hx
    simp at hx
  · rw [if_neg hht] at hx
    simp only [Option.mem_def, Option.some.injEq] at hx
    subst hx
    have hpair : (contents b).Pairwise hlDesc := List.chain'_iff_pairwise.mp hInv
    exact pairwise_getLast_le (contents b) hpair e he _ (contents_getLast b hWF hht)

end HitLocationRingBuffer

open HitLocationRingBuffer in
/-- C3 (amended): with the ring-buffer invariant read in the direction the
code maintains (walking the stored entries from tail to head, genome
locations strictly decrease, so the tail entry is the highest and the head
entry the lowest), every operation preserves it: insertHead (either
overload) under the preconditions its _ASSERTs state, trimAboveLocation and
clear unconditionally; and under the invariant every stored entry is at most
the getTail entry and at least the getHead entry. -/
theorem ringBuffer_invariant_preserved (b : HitLocationRingBuffer)
    (loc so bps sc limit : Nat) (mp : ℚ) (hWF : WF b) (hInv : DescInv b) :
    (insertPre b loc → DescInv (insertHead b loc so bps)) ∧
    (insertPre b loc → DescInv (insertHeadScored b loc so sc mp)) ∧
    DescInv (trimAboveLocation b limit) ∧
    DescInv (clear b) ∧
    (∀ e ∈ contents b, ∀ x ∈ getTail b, e.genomeLocation ≤ x.genomeLocation) ∧
    (∀ e ∈ contents b, ∀ x ∈ getHead b, x.genomeLocation ≤ e.genomeLocation) := by
  refine ⟨?_, ?_, ?_, ?_, ?_, ?_⟩
  · intro hpre
    exact Inv_pushHead b (newEntry b loc so bps) hWF hpre.1 hpre.2 hInv
  · intro hpre
    rw [insertHeadScored_eq b hWF loc so sc mp]
    exact Inv_pushHead b _ hWF hpre.1 hpre.2 hInv
  · exact (trimAux_preserves limit (count b) b hWF rfl hInv).2
  · unfold DescInv
    rw [contents_clear b]
    exact List.chain'_nil
  · exact tail_entry_is_highest b hWF hInv
  · exact head_entry_is_lowest b hWF hInv

/-- A buffer of size 4 holding the single location 10, built by the
operations themselves. -/
def claimedBuf0 : HitLocationRingBuffer :=
  (HitLocationRingBuffer.init 4).insertHead 10 0 0

open HitLocationRingBuffer in
/-- The invariant exactly as claim C3 states it: consecutive stored entries
strictly decreasing, the head entry holding the highest genome location and
the tail entry the lowest. -/
@[reducible] def ClaimedInvariant (b : HitLocationRingBuffer) : Prop :=
  (contents b).Chain' hlDesc ∧
  (∀ e ∈ contents b, ∀ x ∈ getHead b, e.genomeLocation ≤ x.genomeLocation) ∧
  (∀ e ∈ contents b, ∀ x ∈ getTail b, x.genomeLocation ≤ e.genomeLocation)

/-- The single entry of claimedBuf0, location 10. -/
def entry10 : HitLocation :=
  ⟨10, 0, 0, false, 0, 0, 0, 0, 4294967295⟩

/-- The entry inserted second in the counterexample, location 5. -/
def entry5 : HitLocation :=
  ⟨5, 0, 0, false, 0, 0, 0, 0, 4294967295⟩

/-- Helper: claimedBuf0 stores exactly the location-10 entry. -/
theorem claimedBuf0_contents : HitLocationRingBuffer.contents claimedBuf0 = [entry10] :=
  rfl

/-- Helper: after inserting location 5, the buffer stores the location-10
entry (at the tail) followed by the location-5 entry (at the head). -/
theorem claimedBuf1_contents :
    HitLocationRingBuffer.contents (claimedBuf0.insertHead 5 0 0) = [entry10, entry5] :=
  rfl

/-- Helper: the one-entry buffer satisfies the descending-order invariant. -/
theorem claimedBuf0_DescInv : HitLocationRingBuffer.DescInv claimedBuf0 := by
  show (HitLocationRingBuffer.contents claimedBuf0).Chain' hlDesc
  rw [claimedBuf0_contents]
  exact List.chain'_singleton _

open HitLocationRingBuffer in
/-- C3 counterexample: a buffer holding location 10 satisfies the claimed
invariant and the insertHead preconditions for location 5, but after the
insert the head entry holds location 5 and the tail entry location 10: the
head entry is the lowest, not the highest, so insertHead does not preserve
the invariant as the claim orients it. -/
theorem ringBuffer_head_highest_counterexample :
    ClaimedInvariant claimedBuf0 ∧
    WF claimedBuf0 ∧
    insertPre claimedBuf0 5 ∧
    (getHead (claimedBuf0.insertHead 5 0 0)).map HitLocation.genomeLocation = some 5 ∧
    (getTail (claimedBuf0.insertHead 5 0 0)).map HitLocation.genomeLocation = some 10 ∧
    ¬ ClaimedInvariant (claimedBuf0.insertHead 5 0 0) := by
  refine ⟨⟨?_, ?_, ?_⟩, by decide, by decide, rfl, rfl, ?_⟩
  · rw [claimedBuf0_contents]
    exact List.chain'_singleton _
  · intro e he x hx
    rw [claimedBuf0_contents] at he
    have hhead : getHead claimedBuf0 = some entry10 := rfl
    rw [hhead] at hx
    simp only [List.mem_singleton] at he
    simp only [Option.mem_def, Option.some.injEq] at hx
    subst he
    subst hx
    exact le_refl _
  · intro e he x hx
    rw [claimedBuf0_contents] at he
    have htail : getTail claimedBuf0 = some entry10 := rfl
    rw [htail] at hx
    simp only [List.mem_singleton] at he
    simp only [Option.mem_def, Option.some.injEq] at hx
    subst he
    subst hx
    exact le_refl _
  · intro hclaim
    have hcontra := hclaim.2.1
    have h10 : entry10 ∈ contents (claimedBuf0.insertHead 5 0 0) := by
      rw [claimedBuf1_contents]
      exact List.mem_cons_self _ _
    have h5 : entry5 ∈ getHead (claimedBuf0.insertHead 5 0 0) := by
      have hhead : getHead (claimedBuf0.insertHead 5 0 0) = some entry5 := rfl
      rw [hhead]
      rfl
    have hle := hcontra entry10 h10 entry5 h5
    exact absurd hle (by decide)

open HitLocationRingBuffer in
/-- Witness for C3 at the one-entry buffer holding location 10. -/
theorem ringBuffer_invariant_preserved_witness :
    (WF claimedBuf0 ∧ DescInv claimedBuf0) ∧
    ((insertPre claimedBuf0 3 → DescInv (claimedBuf0.insertHead 3 0 0)) ∧
     (insertPre claimedBuf0 3 → DescInv (claimedBuf0.insertHeadScored 3 0 2 0)) ∧
     DescInv (claimedBuf0.trimAboveLocation 7) ∧
     DescInv (claimedBuf0.clear) ∧
     (∀ e ∈ contents claimedBuf0, ∀ x ∈ getTail claimedBuf0,
        e.genomeLocation ≤ x.genomeLocation) ∧
     (∀ e ∈ contents claimedBuf0, ∀ x ∈ getHead claimedBuf0,
        x.genomeLocation ≤ e.genomeLocation)) :=
  ⟨⟨by decide, claimedBuf0_DescInv⟩,
   (ringBuffer_invariant_preserved claimedBuf0 3 0 0 2 7 0 (by decide) claimedBuf0_DescInv)⟩

end Snap
